import Mathlib

/-!
Verification development for the cardano-hackathon swap composer.

Part 1 embeds `parse_amount_and_slippage` from
`src/agents/swap_agent/crew_definition.py`.  The Python function lowercases
the text and runs four `re.search` calls; each regex here is embedded as a
deterministic scanner over the character list.  For these particular
patterns maximal-munch scanning coincides with Python's backtracking
semantics: every optional or repeated piece is followed by a requirement
that its discarded characters could never satisfy (a digit can never start
the tail that follows a shortened `\d+`, a dot can never start `\s*(ada|lovelace)`
or `\s*%`), so the greedy choice is never undone.

Python `float` arithmetic is modelled as exact rational arithmetic; the
theorems that depend on a numeric result restrict themselves to ranges
where IEEE-754 double computation is exact, and the one claim decided by
double rounding itself is left unformalised.
-/

/-- Python `\s` on the ASCII range. -/
def isWsC (c : Char) : Bool :=
  c = ' ' || c = '\t' || c = '\n' || c = '\r' || c = '\x0b' || c = '\x0c'

/-- Python `\d` on the ASCII range. -/
def isDigitC (c : Char) : Bool := c.isDigit

/-- Python `\w` on the ASCII range (the parsed text is lowercased first). -/
def isWordC (c : Char) : Bool := c.isAlphanum || c = '_'

/-- A word boundary `\b` right after a word character: the next character is
absent or not a word character. -/
def atBoundary : List Char → Bool
  | [] => true
  | c :: _ => !(isWordC c)

/-- Match `(\d+(?:\.\d+)?)` at the head of the list: the numeral characters
and the rest.  The fractional part needs at least one digit. -/
def parseNum (l : List Char) : Option (List Char × List Char) :=
  let ds := l.takeWhile isDigitC
  let r := l.dropWhile isDigitC
  if ds.isEmpty then none
  else
    match r with
    | '.' :: r2 =>
        let fs := r2.takeWhile isDigitC
        if fs.isEmpty then some (ds, r)
        else some (ds ++ '.' :: fs, r2.dropWhile isDigitC)
    | _ => some (ds, r)

/-- Match `(\d+(?:\.\d+)?)\s*(ada|lovelace)\b` at the head of the list,
returning the numeral group. -/
def matchUnitNum (l : List Char) : Option (List Char) :=
  match parseNum l with
  | none => none
  | some (num, r) =>
      let r2 := r.dropWhile isWsC
      if ['a', 'd', 'a'].isPrefixOf r2 && atBoundary (r2.drop 3) then some num
      else if ['l', 'o', 'v', 'e', 'l', 'a', 'c', 'e'].isPrefixOf r2 &&
          atBoundary (r2.drop 8) then some num
      else none

/-- Match `slippage\s*[:\-]?\s*(\d+(?:\.\d+)?)\s*%?` at the head of the list,
returning the numeral group.  The trailing `\s*%?` cannot fail and does not
affect the group. -/
def matchSlipWord (l : List Char) : Option (List Char) :=
  if ['s', 'l', 'i', 'p', 'p', 'a', 'g', 'e'].isPrefixOf l then
    let r := (l.drop 8).dropWhile isWsC
    let r2 :=
      match r with
      | ':' :: t => t
      | '-' :: t => t
      | _ => r
    match parseNum (r2.dropWhile isWsC) with
    | some (num, _) => some num
    | none => none
  else none

/-- Match `(\d+(?:\.\d+)?)\s*%` at the head of the list, returning the
numeral group. -/
def matchPercentNum (l : List Char) : Option (List Char) :=
  match parseNum l with
  | none => none
  | some (num, r) =>
      match r.dropWhile isWsC with
      | '%' :: _ => some num
      | _ => none

/-- Match `(\d+(?:\.\d+)?)` at the head of the list. -/
def matchBareNum (l : List Char) : Option (List Char) :=
  (parseNum l).map Prod.fst

/-- `re.search`: try the head match at each position, leftmost first. -/
def searchWith (f : List Char → Option (List Char)) : List Char → Option (List Char)
  | [] => none
  | c :: r =>
      match f (c :: r) with
      | some n => some n
      | none => searchWith f r

/-- Value of a digit string, most significant first. -/
def digitsVal (l : List Char) : ℕ :=
  l.foldl (fun a c => 10 * a + (c.toNat - 48)) 0

/-- Exact rational value of a matched numeral `digits[.digits]`
(Python parses it with `float`; the exactness caveat is discussed above). -/
def ratOfNum (l : List Char) : ℚ :=
  let ip := l.takeWhile (fun c => c ≠ '.')
  let fp := (l.dropWhile (fun c => c ≠ '.')).drop 1
  mkRat (digitsVal ip * 10 ^ fp.length + digitsVal fp) (10 ^ fp.length)

/-- Rational multiplication written so that the kernel can evaluate it;
`ratMul_eq_mul` below identifies it with `*`. -/
def ratMul (a b : ℚ) : ℚ := mkRat (a.num * b.num) (a.den * b.den)

/-- Python `round`: nearest integer, ties to even, computed on the reduced
numerator and denominator. -/
def pyRound (q : ℚ) : ℤ :=
  let f := q.num.fdiv (q.den : ℤ)
  let r2 := 2 * (q.num - f * (q.den : ℤ))
  if r2 < (q.den : ℤ) then f
  else if (q.den : ℤ) < r2 then f + 1
  else if f % 2 = 0 then f else f + 1

/-- Python `int` on a number: truncation toward zero. -/
def pyTrunc (q : ℚ) : ℤ :=
  if 0 ≤ q.num then q.num.fdiv (q.den : ℤ) else -((-q.num).fdiv (q.den : ℤ))

/-- Python `needle in text` substring test. -/
def hasSub (kw : List Char) : List Char → Bool
  | [] => kw.isEmpty
  | c :: r => kw.isPrefixOf (c :: r) || hasSub kw r

/-- The lowercased character list of the input text (`text.lower()`). -/
def lowerOf (s : String) : List Char := s.toList.map Char.toLower

def aggressiveKw : List Char := ['a', 'g', 'g', 'r', 'e', 's', 's', 'i', 'v', 'e']
def fastKw : List Char := ['f', 'a', 's', 't']
def urgentKw : List Char := ['u', 'r', 'g', 'e', 'n', 't']
def safeKw : List Char := ['s', 'a', 'f', 'e']
def conservativeKw : List Char := ['c', 'o', 'n', 's', 'e', 'r', 'v', 'a', 't', 'i', 'v', 'e']
def lowKw : List Char := ['l', 'o', 'w']

/-- `parse_amount_and_slippage` from `src/agents/swap_agent/crew_definition.py`:
returns `(amount_in_lovelace, slippage_percent)`.  The matched numerals always
survive the `float(...)` calls, so the `try/except` wrappers never fire. -/
def parse_amount_and_slippage (text : String) : ℤ × ℤ :=
  let t := lowerOf text
  let slipOpt : Option ℚ :=
    match searchWith matchSlipWord t with
    | some n => some (ratOfNum n)
    | none =>
        match searchWith matchPercentNum t with
        | some n => some (ratOfNum n)
        | none => none
  let adaOpt : Option ℚ :=
    match searchWith matchUnitNum t with
    | some n => some (ratOfNum n)
    | none =>
        match searchWith matchBareNum t with
        | some n => some (ratOfNum n)
        | none => none
  let ada_amount : ℚ := adaOpt.getD 5
  let slippage : ℚ :=
    match slipOpt with
    | some s => s
    | none =>
        if hasSub aggressiveKw t || hasSub fastKw t || hasSub urgentKw t then 30
        else if hasSub safeKw t || hasSub conservativeKw t || hasSub lowKw t then 50
        else 10
  (pyRound (ratMul ada_amount 1000000), pyRound slippage)

/-!
Part 2 embeds the order-composition core of `MinswapSwapTool._run` from
`src/crewai-masumi-quickstart-template/tools.py` (steps 3-5: asset
preparation, order datum, and the locked order output).  Environment
loading, the Blockfrost chain context, wallet derivation, input selection
and signing are external I/O performed by `pycardano`; the composition of
the order output itself is the code under `src/` and is modelled here.
A `charli3_dendrite` `Assets` value maps unit strings (`"lovelace"` or
policy-and-name hex) to integer quantities and is modelled as an
association list; the Python `float` amount is modelled as an exact
rational, and `int(amount * 1_000_000)` as exact truncation toward zero.
-/

/-- Lookup in an association list of asset quantities, absent entries are 0. -/
def getZ (v : List (String × ℤ)) (a : String) : ℤ :=
  match v with
  | [] => 0
  | (k, x) :: r => if k = a then x else getZ r a

/-- Error outcomes of the swap tool.  `quoteUnavailable` and `invalidIntent`
are the spec's error names; they are present so that statements about them
can be written, the tool itself only ever produces `unsupportedToken`. -/
inductive SwapErr where
  | unsupportedToken (tok : String)
  | quoteUnavailable
  | invalidIntent
  deriving DecidableEq

/-- `MIN_POLICY_ID + MIN_ASSET_NAME` from tools.py: the unit string keying
the MIN token in an `Assets` mapping. -/
def minUnit : String :=
  "29d222ce763455e3d7a09a665ce554f00ac89d2e99a1a83d267170c64d494e4d494e"

/-- The preprod order-script payment part used for the order address. -/
def orderScriptHash : String :=
  "c3e28c36c3447315ba5a56f33da6a6ddc1770a876a8d9f0cb3a97c4c"

/-- `batcher_fee = Assets(lovelace=2_000_000)`. -/
def batcherFee : List (String × ℤ) := [("lovelace", 2000000)]

/-- `deposit = Assets(lovelace=2_000_000)`. -/
def depositVal : List (String × ℤ) := [("lovelace", 2000000)]

/-- The arguments of `MinswapOrderDatum.create_datum`. -/
structure MinswapDatum where
  addressSource : String
  inAssets : List (String × ℤ)
  outAssets : List (String × ℤ)
  batcher : List (String × ℤ)
  depositPaid : List (String × ℤ)
  addressTarget : String
  deriving DecidableEq

/-- The output locked at the order address: its value and attached datum. -/
structure OrderTxOut where
  orderAddr : String
  value : List (String × ℤ)
  datum : MinswapDatum
  deriving DecidableEq

instance exceptDecEq {ε α : Type} [DecidableEq ε] [DecidableEq α] :
    DecidableEq (Except ε α)
  | .error e, .error f =>
      if h : e = f then .isTrue (by rw [h]) else .isFalse (by simp [h])
  | .error _, .ok _ => .isFalse (by simp)
  | .ok _, .error _ => .isFalse (by simp)
  | .ok x, .ok y =>
      if h : x = y then .isTrue (by rw [h]) else .isFalse (by simp [h])

/-- `int(amount * 1_000_000)`: six-decimal atomic conversion by truncation. -/
def toAtomicSix (amount : ℚ) : ℤ := pyTrunc (ratMul amount 1000000)

/-- Steps 4-5 of `_run`: build the datum and the order output.  The value
starts from `batcher_fee + deposit` in lovelace, adds the lovelace of
`in_assets` when present, and carries the non-lovelace entries of
`in_assets` as the multi-asset part. -/
def mkOrder (addr : String) (inA outA : List (String × ℤ)) : OrderTxOut :=
  { orderAddr := orderScriptHash
    value :=
      ("lovelace", 2000000 + 2000000 + getZ inA "lovelace") ::
        inA.filter (fun p => p.1 ≠ "lovelace")
    datum :=
      { addressSource := addr
        inAssets := inA
        outAssets := outA
        batcher := batcherFee
        depositPaid := depositVal
        addressTarget := addr } }

/-- Step 3 onward of `MinswapSwapTool._run`: asset preparation and order
composition.  `to_token` and `slippage` are accepted but never read, exactly
as in the source.  `addr` stands for the wallet address derived from the
mnemonic. -/
def minswapCompose (from_token to_token : String) (amount slippage : ℚ)
    (addr : String) : Except SwapErr OrderTxOut :=
  if from_token = "ADA" then
    Except.ok (mkOrder addr [("lovelace", toAtomicSix amount)] [(minUnit, 0)])
  else if from_token = "MIN" then
    Except.ok (mkOrder addr [(minUnit, toAtomicSix amount)] [("lovelace", 0)])
  else
    Except.error (SwapErr.unsupportedToken from_token)

/-!
Part 3 models the Composer components whose implementation is not under
`src/`: UTXO selection and transaction balancing happen inside
`pycardano.TransactionBuilder` (called at tools.py `build_and_sign`), and
intent validation and quote handling exist only in the spec.  These
definitions are therefore modelled from the spec (sections 3-6), as their
doc comments state, and the claims about them are settled against this
model.  Asset values are association lists from asset id (a unit string)
to a non-negative quantity; absent entries read as zero.
-/

/-- Lookup in a non-negative asset value, absent entries are 0. -/
def getN (v : List (String × ℕ)) (a : String) : ℕ :=
  match v with
  | [] => 0
  | (k, x) :: r => if k = a then x else getN r a

def keysOf (v : List (String × ℕ)) : List String := v.map Prod.fst

/-- Normalized asset value over a key list: zero entries are omitted. -/
def mkVal : List String → (String → ℕ) → List (String × ℕ)
  | [], _ => []
  | k :: r, f => if f k = 0 then mkVal r f else (k, f k) :: mkVal r f

/-- Modelled from the spec: entrywise `add` of the Asset Value Model, the
result normalized over the union of the key sets. -/
def addV (x y : List (String × ℕ)) : List (String × ℕ) :=
  mkVal ((keysOf x ++ keysOf y).dedup) (fun a => getN x a + getN y a)

/-- An unspent output as the spec's data model has it. -/
structure UTXO where
  txHash : ℕ
  ix : ℕ
  value : List (String × ℕ)
  deriving DecidableEq

/-- Total quantity of one asset across a list of UTXOs. -/
def totalQ (us : List UTXO) (a : String) : ℕ :=
  (us.map (fun u => getN u.value a)).sum

/-- Modelled from the spec: the Composer error taxonomy of section 7. -/
inductive ComposerErr where
  | invalidIntent
  | unsupportedAssetPair
  | insufficientFunds
  | quoteUnavailable
  deriving DecidableEq

/-- Largest-first order for one asset, ties broken by UTXO id. -/
def keyBefore (a : String) (u v : UTXO) : Bool :=
  getN v.value a < getN u.value a ||
    (getN v.value a = getN u.value a &&
      (u.txHash < v.txHash || (u.txHash = v.txHash && u.ix ≤ v.ix)))

def insertDesc (a : String) (u : UTXO) : List UTXO → List UTXO
  | [] => [u]
  | v :: r => if keyBefore a u v then u :: v :: r else v :: insertDesc a u r

def sortDesc (a : String) (l : List UTXO) : List UTXO := l.foldr (insertDesc a) []

/-- Take UTXOs from the front until `need` is accumulated for asset `a`;
returns the taken prefix and the untouched rest. -/
def greedySplit (a : String) (need : ℕ) : List UTXO → List UTXO × List UTXO
  | [] => ([], [])
  | u :: r =>
      if need = 0 then ([], u :: r)
      else
        let s := greedySplit a (need - getN u.value a) r
        (u :: s.1, s.2)

/-- One greedy pass per required asset over the remaining pool. -/
def selLoop : List (String × ℕ) → List UTXO → List UTXO → List UTXO
  | [], _, sel => sel
  | (a, t) :: rest, pool, sel =>
      let s := greedySplit a (t - totalQ sel a) (sortDesc a pool)
      selLoop rest s.2 (sel ++ s.1)

/-- Modelled from the spec: the UTXO Selector of section 4.3 — greedy
largest-first per required asset, ties by UTXO id, and an exhaustive
`InsufficientFunds` check of each target against the sum over the whole
UTXO set. -/
def selectUtxos (targets : List (String × ℕ)) (utxos : List UTXO) :
    Except ComposerErr (List UTXO) :=
  if targets.all (fun p => p.2 ≤ totalQ utxos p.1) then
    Except.ok (selLoop targets utxos [])
  else Except.error ComposerErr.insufficientFunds

/-- The spec's `OrderDatum`. -/
structure SpecDatum where
  sender : String
  refund : String
  asset_in : String
  min_asset_out : ℤ
  batcher : List (String × ℕ)
  depositPaid : List (String × ℕ)
  deriving DecidableEq

structure SpecTxOut where
  addr : String
  value : List (String × ℕ)
  datum : Option SpecDatum
  deriving DecidableEq

/-- The spec's `ComposedTransaction`: input ids, outputs, fee. -/
structure SpecTx where
  inputs : List (ℕ × ℕ)
  outputs : List SpecTxOut
  fee : List (String × ℕ)
  deriving DecidableEq

/-- All asset ids occurring in the selected inputs, the locked value or the
fee. -/
def assembleKeys (sel : List UTXO) (locked fee : List (String × ℕ)) : List String :=
  ((sel.map (fun u => keysOf u.value)).flatten ++ keysOf locked ++ keysOf fee).dedup

/-- Modelled from the spec: the Transaction Assembler of section 4.5 — one
locked output carrying the datum, one normalized change output with
`sum(selected) - locked - fee`, failing when the selected inputs cannot
cover the locked value plus the fee. -/
def assemble (sel : List UTXO) (locked : List (String × ℕ)) (d : Option SpecDatum)
    (fee : List (String × ℕ)) (orderAddr changeAddr : String) :
    Except ComposerErr SpecTx :=
  let ks := assembleKeys sel locked fee
  if ks.all (fun a => getN locked a + getN fee a ≤ totalQ sel a) then
    Except.ok
      { inputs := sel.map (fun u => (u.txHash, u.ix))
        outputs :=
          [{ addr := orderAddr, value := locked, datum := d },
           { addr := changeAddr
             value := mkVal ks (fun a => totalQ sel a - getN locked a - getN fee a)
             datum := none }]
        fee := fee }
  else Except.error ComposerErr.insufficientFunds

/-- Sum of one asset over a transaction's outputs. -/
def outSum (tx : SpecTx) (a : String) : ℕ :=
  (tx.outputs.map (fun o => getN o.value a)).sum

/-- The spec's `SwapIntent`. -/
structure SwapIntentSpec where
  asset_in : String
  asset_out : String
  amount_major : ℚ
  slippage_percent : ℚ
  deriving DecidableEq

/-- The spec's `WalletContext` (key material omitted: it never enters the
unsigned transaction). -/
structure WalletCtx where
  ownerAddr : String
  utxos : List UTXO
  deriving DecidableEq

/-- Modelled from the spec: the `DexConfig` plus the external collaborators'
snapshots (fee estimate and quote) that section 6 injects. -/
structure DexCfg where
  supported : List String
  batcher : List (String × ℕ)
  depositReq : List (String × ℕ)
  orderAddr : String
  decimalsIn : ℕ
  feeEstimate : List (String × ℕ)
  expectedOut : Option ℕ
  deriving DecidableEq

/-- Modelled from the spec: the Intent Validator of section 4.2. -/
def validateIntent (i : SwapIntentSpec) (cfg : DexCfg) : Except ComposerErr Unit :=
  if i.amount_major ≤ 0 then Except.error ComposerErr.invalidIntent
  else if i.slippage_percent < 0 ∨ 100 < i.slippage_percent then
    Except.error ComposerErr.invalidIntent
  else if i.asset_in = i.asset_out then Except.error ComposerErr.invalidIntent
  else if i.asset_in ∈ cfg.supported ∧ i.asset_out ∈ cfg.supported then Except.ok ()
  else Except.error ComposerErr.unsupportedAssetPair

/-- Modelled from the spec: `to_atomic` of section 4.1, rounding down;
written with integer division so the kernel can evaluate it. -/
def toAtomicSpec (amount : ℚ) (decimals : ℕ) : ℤ :=
  (amount.num * 10 ^ decimals).fdiv (amount.den : ℤ)

/-- Modelled from the spec: `min_out = floor(expected_out * (1 - slippage/100))`,
written with integer division so the kernel can evaluate it;
`minOutSpec_eq_floor` below gives the floor form. -/
def minOutSpec (expected : ℕ) (slip : ℚ) : ℤ :=
  ((expected : ℤ) * (100 * (slip.den : ℤ) - slip.num)).fdiv (100 * (slip.den : ℤ))

/-- Modelled from the spec: the Order Datum Encoder of section 4.4, failing
with `QuoteUnavailable` when no quote was supplied. -/
def buildDatum (i : SwapIntentSpec) (w : WalletCtx) (cfg : DexCfg) :
    Except ComposerErr SpecDatum :=
  match cfg.expectedOut with
  | none => Except.error ComposerErr.quoteUnavailable
  | some e =>
      Except.ok
        { sender := w.ownerAddr
          refund := w.ownerAddr
          asset_in := i.asset_in
          min_asset_out := minOutSpec e i.slippage_percent
          batcher := cfg.batcher
          depositPaid := cfg.depositReq }

/-- The value locked under the order script: atomic amount plus batcher fee
plus deposit. -/
def lockedOf (i : SwapIntentSpec) (cfg : DexCfg) : List (String × ℕ) :=
  addV (addV [(i.asset_in, (toAtomicSpec i.amount_major cfg.decimalsIn).toNat)]
      cfg.batcher)
    cfg.depositReq

def encodeStr (s : String) : List ℕ := s.length :: s.toList.map Char.toNat

def encodeVal (v : List (String × ℕ)) : List ℕ :=
  v.length :: (v.map (fun p => encodeStr p.1 ++ [p.2])).flatten

def encodeInt (z : ℤ) : List ℕ := [if 0 ≤ z then 0 else 1, z.natAbs]

def encodeDatum (d : SpecDatum) : List ℕ :=
  encodeStr d.sender ++ encodeStr d.refund ++ encodeStr d.asset_in ++
    encodeInt d.min_asset_out ++ encodeVal d.batcher ++ encodeVal d.depositPaid

/-- A concrete serialization of the unsigned transaction; two transactions
are byte-identical exactly when their encodings agree. -/
def encodeTx (tx : SpecTx) : List ℕ :=
  tx.inputs.length :: (tx.inputs.map (fun p => [p.1, p.2])).flatten ++
    tx.outputs.length ::
      (tx.outputs.map (fun o =>
        encodeStr o.addr ++ encodeVal o.value ++
          match o.datum with
          | none => [0]
          | some d => 1 :: encodeDatum d)).flatten ++
    encodeVal tx.fee

/-- Modelled from the spec: the `compose_swap` pipeline of section 6, as a
relation between the inputs and a produced unsigned transaction — validate,
encode the datum, select UTXOs, assemble. -/
inductive Composes (i : SwapIntentSpec) (w : WalletCtx) (cfg : DexCfg) : SpecTx → Prop where
  | steps (d : SpecDatum) (sel : List UTXO) (tx : SpecTx)
      (hval : validateIntent i cfg = Except.ok ())
      (hdat : buildDatum i w cfg = Except.ok d)
      (hsel : selectUtxos (lockedOf i cfg) w.utxos = Except.ok sel)
      (hasm : assemble sel (lockedOf i cfg) (some d) cfg.feeEstimate
          cfg.orderAddr w.ownerAddr = Except.ok tx) :
      Composes i w cfg tx

/-- A concrete scenario used to instantiate the pipeline: the spec's
10-ada swap against a 50-ada wallet with a quote of 100 and slippage 5. -/
def intentC : SwapIntentSpec :=
  { asset_in := "lovelace", asset_out := minUnit, amount_major := 10,
    slippage_percent := 5 }

def walletC : WalletCtx :=
  { ownerAddr := "me", utxos := [⟨0, 0, [("lovelace", 50000000)]⟩] }

def cfgC : DexCfg :=
  { supported := ["lovelace", minUnit]
    batcher := [("lovelace", 2000000)]
    depositReq := [("lovelace", 2000000)]
    orderAddr := "order"
    decimalsIn := 6
    feeEstimate := [("lovelace", 200000)]
    expectedOut := some 100 }

def datumC : SpecDatum :=
  { sender := "me", refund := "me", asset_in := "lovelace", min_asset_out := 95,
    batcher := [("lovelace", 2000000)], depositPaid := [("lovelace", 2000000)] }

def txC : SpecTx :=
  { inputs := [(0, 0)]
    outputs :=
      [{ addr := "order", value := [("lovelace", 14000000)], datum := some datumC },
       { addr := "me", value := [("lovelace", 35800000)], datum := none }]
    fee := [("lovelace", 200000)] }

/-!
Shared lemmas: the kernel-evaluable arithmetic agrees with the standard
rational operations, and the asset-value bookkeeping facts used by the
claim theorems.
-/

theorem ratMul_eq_mul (a b : ℚ) : ratMul a b = a * b := by
  rw [ratMul, Rat.mkRat_eq_div]
  push_cast
  rw [← div_mul_div_comm, Rat.num_div_den, Rat.num_div_den]

theorem fdiv_num_den_eq_floor (q : ℚ) : q.num.fdiv (q.den : ℤ) = ⌊q⌋ := by
  rw [Int.fdiv_eq_ediv _ (Int.natCast_nonneg _), Rat.floor_def]

theorem pyRound_intCast (z : ℤ) : pyRound ((z : ℚ)) = z := by
  simp [pyRound, Int.fdiv_one]

theorem pyRound_natCast (n : ℕ) : pyRound ((n : ℚ)) = n := by
  rw [show ((n : ℚ)) = ((n : ℤ) : ℚ) by push_cast; ring, pyRound_intCast]

theorem pyTrunc_eq_floor (q : ℚ) (h : 0 ≤ q) : pyTrunc q = ⌊q⌋ := by
  rw [pyTrunc, if_pos (Rat.num_nonneg.mpr h), fdiv_num_den_eq_floor]

theorem getN_eq_zero (v : List (String × ℕ)) (a : String) (h : a ∉ keysOf v) :
    getN v a = 0 := by
  induction v with
  | nil => rfl
  | cons p r ih =>
      rcases p with ⟨k, x⟩
      simp only [keysOf, List.map_cons, List.mem_cons, not_or] at h
      simp only [getN]
      rw [if_neg (fun hk => h.1 hk.symm)]
      exact ih fun hm => h.2 (by simpa [keysOf] using hm)

theorem getN_mkVal (ks : List String) (f : String → ℕ) (a : String) (hnd : ks.Nodup) :
    getN (mkVal ks f) a = if a ∈ ks then f a else 0 := by
  induction ks with
  | nil => simp [mkVal, getN]
  | cons k r ih =>
      rcases List.nodup_cons.mp hnd with ⟨hk, hr⟩
      by_cases hak : a = k
      · subst hak
        simp only [mkVal, List.mem_cons, true_or, if_pos]
        by_cases hz : f a = 0
        · rw [if_pos hz, ih hr, if_neg hk, hz]
        · simp [if_neg hz, getN]
      · simp only [mkVal, List.mem_cons]
        have hcond : (a = k ∨ a ∈ r) ↔ a ∈ r := by
          constructor
          · rintro (h | h)
            · exact absurd h hak
            · exact h
          · exact Or.inr
        by_cases hz : f k = 0
        · rw [if_pos hz, ih hr]
          simp [hcond]
        · rw [if_neg hz]
          simp only [getN]
          rw [if_neg (fun h => hak h.symm), ih hr]
          simp [hcond]

theorem totalQ_cons (u : UTXO) (l : List UTXO) (a : String) :
    totalQ (u :: l) a = getN u.value a + totalQ l a := by
  simp [totalQ]

theorem totalQ_append (l₁ l₂ : List UTXO) (a : String) :
    totalQ (l₁ ++ l₂) a = totalQ l₁ a + totalQ l₂ a := by
  simp [totalQ]

theorem totalQ_insertDesc (b : String) (u : UTXO) (l : List UTXO) (a : String) :
    totalQ (insertDesc b u l) a = getN u.value a + totalQ l a := by
  induction l with
  | nil => simp [insertDesc, totalQ]
  | cons v r ih =>
      rw [insertDesc]
      by_cases h : keyBefore b u v
      · rw [if_pos h, totalQ_cons]
      · rw [if_neg h, totalQ_cons, ih, totalQ_cons]
        omega

theorem totalQ_sortDesc (b : String) (l : List UTXO) (a : String) :
    totalQ (sortDesc b l) a = totalQ l a := by
  induction l with
  | nil => rfl
  | cons u r ih =>
      show totalQ (insertDesc b u (sortDesc b r)) a = totalQ (u :: r) a
      rw [totalQ_insertDesc, ih, totalQ_cons]

theorem greedySplit_append (a : String) (need : ℕ) (l : List UTXO) :
    (greedySplit a need l).1 ++ (greedySplit a need l).2 = l := by
  induction l generalizing need with
  | nil => rfl
  | cons u r ih =>
      rw [greedySplit]
      by_cases h : need = 0
      · rw [if_pos h]
        rfl
      · rw [if_neg h]
        simpa using ih (need - getN u.value a)


theorem greedySplit_cover (a : String) (need : ℕ) (l : List UTXO)
    (h : need ≤ totalQ l a) : need ≤ totalQ (greedySplit a need l).1 a := by
  induction l generalizing need with
  | nil =>
      simp only [totalQ, List.map_nil, List.sum_nil, Nat.le_zero] at h
      simp [greedySplit, h, totalQ]
  | cons u r ih =>
      rw [greedySplit]
      by_cases h0 : need = 0
      · simp [h0]
      · rw [if_neg h0]
        simp only
        rw [totalQ_cons]
        rw [totalQ_cons] at h
        have := ih (need - getN u.value a) (by omega)
        omega

theorem selLoop_mono (ts : List (String × ℕ)) (pool sel : List UTXO) (a : String) :
    totalQ sel a ≤ totalQ (selLoop ts pool sel) a := by
  induction ts generalizing pool sel with
  | nil => simp [selLoop]
  | cons q rest ih =>
      rcases q with ⟨b, t⟩
      simp only [selLoop]
      refine le_trans ?_ (ih _ _)
      rw [totalQ_append]
      omega

theorem selLoop_cover (ts : List (String × ℕ)) (pool sel : List UTXO) (T : String → ℕ)
    (hinv : ∀ a, totalQ sel a + totalQ pool a = T a)
    (hok : ∀ p ∈ ts, p.2 ≤ T p.1) :
    ∀ p ∈ ts, p.2 ≤ totalQ (selLoop ts pool sel) p.1 := by
  induction ts generalizing pool sel with
  | nil => intro p hp; cases hp
  | cons q rest ih =>
      rcases q with ⟨b, t⟩
      intro p hp
      simp only [selLoop]
      set s := greedySplit b (t - totalQ sel b) (sortDesc b pool) with hs
      have hsplit : ∀ a, totalQ s.1 a + totalQ s.2 a = totalQ pool a := by
        intro a
        rw [← totalQ_append, greedySplit_append, totalQ_sortDesc]
      have hinv2 : ∀ a, totalQ (sel ++ s.1) a + totalQ s.2 a = T a := by
        intro a
        rw [totalQ_append]
        have h1 := hsplit a
        have h2 := hinv a
        omega
      rcases List.mem_cons.mp hp with hhead | htail
      · subst hhead
        have hcov : t - totalQ sel b ≤ totalQ s.1 b := by
          apply greedySplit_cover
          rw [totalQ_sortDesc]
          have h1 := hinv b
          have h2 := hok (b, t) (List.mem_cons_self _ _)
          simp only at h2
          omega
        have hmono := selLoop_mono rest s.2 (sel ++ s.1) b
        have happ := totalQ_append sel s.1 b
        simp only
        omega
      · exact ih s.2 (sel ++ s.1) hinv2
          (fun r hr => hok r (List.mem_cons_of_mem _ hr)) p htail

/-- C6: for every wallet UTXO set and target value, if the wallet's total
held quantity of each required asset reaches the target then UTXO selection
succeeds and the selected sum covers every required asset; if some asset's
total over the whole UTXO set falls short (a zero-UTXO wallet included),
selection fails with `InsufficientFunds`. -/
theorem c6_selection (targets : List (String × ℕ)) (utxos : List UTXO) :
    ((∀ p ∈ targets, p.2 ≤ totalQ utxos p.1) →
      ∃ sel, selectUtxos targets utxos = Except.ok sel ∧
        ∀ p ∈ targets, p.2 ≤ totalQ sel p.1) ∧
    ((∃ p ∈ targets, totalQ utxos p.1 < p.2) →
      selectUtxos targets utxos = Except.error ComposerErr.insufficientFunds) := by
  constructor
  · intro h
    have hall : (targets.all fun p => decide (p.2 ≤ totalQ utxos p.1)) = true :=
      List.all_eq_true.mpr fun p hp => decide_eq_true (h p hp)
    refine ⟨selLoop targets utxos [], ?_, ?_⟩
    · rw [selectUtxos, if_pos (of_decide_eq_true (by simpa using hall))]
    · exact selLoop_cover targets utxos [] (totalQ utxos)
        (fun a => by simp [totalQ]) h
  · rintro ⟨p, hp, hlt⟩
    rw [selectUtxos, if_neg]
    intro hall
    have h2 := of_decide_eq_true (List.all_eq_true.mp hall p hp)
    omega

/-- Witness for C6: the spec's concrete scenarios — one 50-ada UTXO covers a
14-ada target, and the empty wallet fails with `InsufficientFunds`. -/
theorem c6_witness :
    (∃ sel,
        selectUtxos [("lovelace", 14000000)] [⟨0, 0, [("lovelace", 50000000)]⟩] =
            Except.ok sel ∧
          ∀ p ∈ [(("lovelace" : String), 14000000)], p.2 ≤ totalQ sel p.1) ∧
      selectUtxos [("lovelace", 14000000)] [] =
        Except.error ComposerErr.insufficientFunds :=
  ⟨(c6_selection [("lovelace", 14000000)] [⟨0, 0, [("lovelace", 50000000)]⟩]).1
      (by decide),
   (c6_selection [("lovelace", 14000000)] []).2
      ⟨("lovelace", 14000000), by decide⟩⟩

/-- C1: the balance law — for every successfully assembled transaction and
every asset, the sum of the selected input values equals the sum of the
output values plus the fee, absent entries reading as zero; no value is
created or destroyed. -/
theorem c1_balance (sel : List UTXO) (locked : List (String × ℕ))
    (d : Option SpecDatum) (fee : List (String × ℕ)) (orderAddr changeAddr : String)
    (tx : SpecTx) (h : assemble sel locked d fee orderAddr changeAddr = Except.ok tx) :
    ∀ a, totalQ sel a = outSum tx a + getN tx.fee a := by
  rw [assemble] at h
  split at h
  next hc =>
    injection h with htx
    subst htx
    intro a
    simp only [outSum, List.map_cons, List.map_nil, List.sum_cons, List.sum_nil]
    have hnd : (assembleKeys sel locked fee).Nodup := List.nodup_dedup _
    rw [getN_mkVal _ _ _ hnd]
    by_cases hm : a ∈ assembleKeys sel locked fee
    · have hcov := of_decide_eq_true (List.all_eq_true.mp hc a hm)
      rw [if_pos hm]
      omega
    · rw [if_neg hm]
      have hks :
          a ∉ ((sel.map fun u => keysOf u.value).flatten ++ keysOf locked ++ keysOf fee) := by
        simpa [assembleKeys, List.mem_dedup] using hm
      simp only [List.mem_append, not_or] at hks
      have hl : getN locked a = 0 := getN_eq_zero _ _ hks.1.2
      have hf : getN fee a = 0 := getN_eq_zero _ _ hks.2
      have hz : totalQ sel a = 0 := by
        rw [totalQ]
        apply List.sum_eq_zero
        intro x hx
        rcases List.mem_map.mp hx with ⟨u, hu, rfl⟩
        apply getN_eq_zero
        intro hk
        exact hks.1.1 (List.mem_flatten.mpr ⟨keysOf u.value, List.mem_map_of_mem _ hu, hk⟩)
      omega
  next => exact absurd h (by simp)

/-- Witness for C1: the balance law applied to the 50-ada wallet locking
14 ada with a 200000 fee; the change output holds 35.8 ada. -/
theorem c1_witness :
    totalQ [⟨0, 0, [("lovelace", 50000000)]⟩] "lovelace" =
      outSum
          { inputs := [(0, 0)]
            outputs :=
              [{ addr := "order", value := [("lovelace", 14000000)], datum := none },
               { addr := "me", value := [("lovelace", 35800000)], datum := none }]
            fee := [("lovelace", 200000)] } "lovelace" +
        getN [("lovelace", 200000)] "lovelace" :=
  c1_balance [⟨0, 0, [("lovelace", 50000000)]⟩] [("lovelace", 14000000)] none
    [("lovelace", 200000)] "order" "me" _ (by decide) "lovelace"

/-- C7: determinism — any two compositions from the same `SwapIntent`, the
same `WalletContext` snapshot and the same configuration produce
byte-identical unsigned transactions. -/
theorem c7_deterministic (i : SwapIntentSpec) (w : WalletCtx) (cfg : DexCfg)
    (t1 t2 : SpecTx) (h1 : Composes i w cfg t1) (h2 : Composes i w cfg t2) :
    encodeTx t1 = encodeTx t2 := by
  cases h1 with
  | steps d1 sel1 tx1 hval1 hdat1 hsel1 hasm1 =>
    cases h2 with
    | steps d2 sel2 tx2 hval2 hdat2 hsel2 hasm2 =>
      rw [hdat1] at hdat2
      injection hdat2 with hd
      subst hd
      rw [hsel1] at hsel2
      injection hsel2 with hs
      subst hs
      rw [hasm1] at hasm2
      injection hasm2 with ht
      rw [ht]

/-- Witness for C7: the spec's concrete scenario composes (with
`min_asset_out = 95`), and two runs of the pipeline give the same bytes. -/
theorem c7_witness : Composes intentC walletC cfgC txC ∧ encodeTx txC = encodeTx txC :=
  ⟨Composes.steps datumC [⟨0, 0, [("lovelace", 50000000)]⟩] txC
      (by decide) (by decide) (by decide) (by decide),
   c7_deterministic intentC walletC cfgC txC txC
     (Composes.steps datumC [⟨0, 0, [("lovelace", 50000000)]⟩] txC
       (by decide) (by decide) (by decide) (by decide))
     (Composes.steps datumC [⟨0, 0, [("lovelace", 50000000)]⟩] txC
       (by decide) (by decide) (by decide) (by decide))⟩

theorem getZ_filter_ne (v : List (String × ℤ)) (a : String)
    (ha : ("lovelace" : String) ≠ a) :
    getZ (v.filter fun p => p.1 ≠ "lovelace") a = getZ v a := by
  induction v with
  | nil => rfl
  | cons p r ih =>
      rcases p with ⟨k, x⟩
      rw [List.filter_cons]
      by_cases hk : k = "lovelace"
      · subst hk
        rw [if_neg (by simp)]
        simp only [getZ]
        rw [if_neg ha, ih]
      · rw [if_pos (by simp [hk])]
        simp only [getZ]
        rw [ih]

theorem mkOrder_value_law (addr : String) (inA outA : List (String × ℤ)) (a : String) :
    getZ (mkOrder addr inA outA).value a =
      getZ inA a + getZ batcherFee a + getZ depositVal a := by
  by_cases ha : ("lovelace" : String) = a
  · subst ha
    simp [mkOrder, getZ, batcherFee, depositVal]
    ring
  · simp only [mkOrder, getZ, if_neg ha]
    rw [getZ_filter_ne _ _ ha]
    simp [getZ, batcherFee, depositVal, ha]

/-- C5: for every successfully composed swap, the output locked at the
order-script address carries the order datum and its value equals the
atomic input assets plus the batcher fee plus the deposit, entry by
entry. -/
theorem c5_locked_value (from_token to_token : String) (amount slippage : ℚ)
    (addr : String) (tx : OrderTxOut)
    (h : minswapCompose from_token to_token amount slippage addr = Except.ok tx) :
    (∀ a, getZ tx.value a =
        getZ tx.datum.inAssets a + getZ batcherFee a + getZ depositVal a) ∧
      tx.datum.batcher = batcherFee ∧ tx.datum.depositPaid = depositVal := by
  rw [minswapCompose] at h
  split at h
  · injection h with htx
    subst htx
    exact ⟨fun a => mkOrder_value_law _ _ _ a, rfl, rfl⟩
  · split at h
    · injection h with htx
      subst htx
      exact ⟨fun a => mkOrder_value_law _ _ _ a, rfl, rfl⟩
    · exact absurd h (by simp)

/-- Witness for C5: the 10-ada swap locks exactly
10,000,000 + 2,000,000 + 2,000,000 = 14,000,000 lovelace. -/
theorem c5_witness :
    getZ (mkOrder "addr0" [("lovelace", 10000000)] [(minUnit, 0)]).value "lovelace" =
      14000000 := by
  have h :=
    (c5_locked_value "ADA" "MIN" 10 1 "addr0"
        (mkOrder "addr0" [("lovelace", 10000000)] [(minUnit, 0)]) (by decide)).1
      "lovelace"
  rw [h]
  decide

/-- Counterexample for C4: with `asset_in = asset_out = "ADA"` the tool does
not fail with `InvalidIntent`; composition proceeds and succeeds. -/
theorem c4_cex :
    minswapCompose "ADA" "ADA" 10 1 "addr0" ≠ Except.error SwapErr.invalidIntent ∧
      (minswapCompose "ADA" "ADA" 10 1 "addr0").isOk = true := by
  decide

/-- C4 (amended): the only intent validation the tool performs is that
`from_token` is one of the supported tokens ADA and MIN, failing otherwise;
it checks neither `amount > 0`, nor the slippage bounds, nor
`asset_in ≠ asset_out`, and with `from_token = "ADA"` composition proceeds
whatever the other fields hold. -/
theorem c4_amended (from_token to_token : String) (amount slippage : ℚ)
    (addr : String) :
    (from_token ≠ "ADA" → from_token ≠ "MIN" →
      minswapCompose from_token to_token amount slippage addr =
        Except.error (SwapErr.unsupportedToken from_token)) ∧
    (from_token = "ADA" →
      (minswapCompose from_token to_token amount slippage addr).isOk = true) := by
  constructor
  · intro h1 h2
    rw [minswapCompose, if_neg h1, if_neg h2]
  · intro h
    rw [minswapCompose, if_pos h]
    rfl

/-- Witness for C4 (amended): an unsupported token is rejected, and an
ADA-to-ADA intent with slippage 200 and a negative amount still composes. -/
theorem c4_witness :
    minswapCompose "BTC" "MIN" 10 1 "addr0" =
        Except.error (SwapErr.unsupportedToken "BTC") ∧
      (minswapCompose "ADA" "ADA" (-3) 200 "addr0").isOk = true :=
  ⟨(c4_amended "BTC" "MIN" 10 1 "addr0").1 (by decide) (by decide),
   (c4_amended "ADA" "ADA" (-3) 200 "addr0").2 rfl⟩

/-- Counterexample for C8: no `expected_out` is ever supplied, yet the tool
does not fail with `QuoteUnavailable` — it composes an order whose datum
carries 0 as the minimum output quantity. -/
theorem c8_cex :
    minswapCompose "ADA" "MIN" 10 1 "addr0" ≠
        Except.error SwapErr.quoteUnavailable ∧
      minswapCompose "ADA" "MIN" 10 1 "addr0" =
        Except.ok (mkOrder "addr0" [("lovelace", 10000000)] [(minUnit, 0)]) ∧
      getZ (mkOrder "addr0" [("lovelace", 10000000)] [(minUnit, 0)]).datum.outAssets
          minUnit = 0 := by
  decide

/-- C8 (amended): the tool consumes no external quote at all — every
successfully composed order datum has minimum-output quantity 0 for every
entry, and composition never fails with `QuoteUnavailable`. -/
theorem c8_amended (from_token to_token : String) (amount slippage : ℚ)
    (addr : String) :
    (∀ tx, minswapCompose from_token to_token amount slippage addr = Except.ok tx →
      ∀ p ∈ tx.datum.outAssets, p.2 = 0) ∧
      minswapCompose from_token to_token amount slippage addr ≠
        Except.error SwapErr.quoteUnavailable := by
  rw [minswapCompose]
  split
  · refine ⟨?_, by simp⟩
    intro tx htx p hp
    injection htx with htx
    subst htx
    simp only [mkOrder] at hp
    simp only [List.mem_singleton] at hp
    subst hp
    rfl
  · split
    · refine ⟨?_, by simp⟩
      intro tx htx p hp
      injection htx with htx
      subst htx
      simp only [mkOrder] at hp
      simp only [List.mem_singleton] at hp
      subst hp
      rfl
    · exact ⟨fun tx htx => absurd htx (by simp), by simp⟩

/-- Witness for C8 (amended): applied to the concrete ADA-to-MIN order. -/
theorem c8_witness :
    (∀ p ∈ (mkOrder "addr0" [("lovelace", 10000000)] [(minUnit, 0)]).datum.outAssets,
        p.2 = 0) ∧
      minswapCompose "ADA" "MIN" 10 1 "addr0" ≠
        Except.error SwapErr.quoteUnavailable :=
  ⟨(c8_amended "ADA" "MIN" 10 1 "addr0").1 _ (by decide),
   (c8_amended "ADA" "MIN" 10 1 "addr0").2⟩

/-- C9: when the first unit-suffixed number of the text is a whole-number
numeral of value `N` (for 'lovelace' exactly as for 'ada', both handled by
the same regex alternation), the parsed amount is `N * 1,000,000` lovelace.
The bound keeps `N * 1_000_000` inside the range where the source's
double-precision arithmetic is exact. -/
theorem c9_lovelace_amount (t : String) (ds : List Char) (N : ℕ)
    (h1 : searchWith matchUnitNum (lowerOf t) = some ds)
    (h2 : ratOfNum ds = (N : ℚ))
    (h3 : N * 1000000 < 2 ^ 53) :
    (parse_amount_and_slippage t).1 = (N : ℤ) * 1000000 := by
  simp only [parse_amount_and_slippage, h1, h2, Option.getD_some]
  rw [ratMul_eq_mul]
  rw [show ((N : ℚ) * 1000000) = (((N * 1000000 : ℕ) : ℤ) : ℚ) by push_cast; ring]
  rw [pyRound_intCast]
  push_cast
  ring

/-- Witness for C9: 'swap 10 lovelace' parses to 10,000,000 lovelace, the
'lovelace' suffix matched by the same pattern as 'ada'. -/
theorem c9_witness :
    (parse_amount_and_slippage "swap 10 lovelace").1 = (10 : ℤ) * 1000000 :=
  c9_lovelace_amount "swap 10 lovelace" ['1', '0'] 10 (by decide) (by decide)
    (by decide)

/-- Counterexample for C10: "swap 10 ada safe fast" has no explicit slippage
figure and no percent sign and contains "safe", yet the parser assigns
slippage 30, not 50 — the aggressive-keyword branch takes precedence. -/
theorem c10_cex :
    hasSub safeKw (lowerOf "swap 10 ada safe fast") = true ∧
      searchWith matchSlipWord (lowerOf "swap 10 ada safe fast") = none ∧
      searchWith matchPercentNum (lowerOf "swap 10 ada safe fast") = none ∧
      (parse_amount_and_slippage "swap 10 ada safe fast").2 = 30 := by
  decide

/-- C10 (amended): with no explicit slippage figure and no percent sign, the
parser returns 30 when the text contains 'aggressive', 'fast' or 'urgent';
50 when it contains none of those but contains 'safe', 'conservative' or
'low'; and 10 otherwise — the aggressive keywords take precedence, so a
purely 'safe' request still gets a larger slippage than an 'aggressive'
one. -/
theorem c10_amended (t : String)
    (h1 : searchWith matchSlipWord (lowerOf t) = none)
    (h2 : searchWith matchPercentNum (lowerOf t) = none) :
    ((hasSub aggressiveKw (lowerOf t) || hasSub fastKw (lowerOf t) ||
          hasSub urgentKw (lowerOf t)) = true →
        (parse_amount_and_slippage t).2 = 30) ∧
      ((hasSub aggressiveKw (lowerOf t) || hasSub fastKw (lowerOf t) ||
          hasSub urgentKw (lowerOf t)) = false →
        (hasSub safeKw (lowerOf t) || hasSub conservativeKw (lowerOf t) ||
            hasSub lowKw (lowerOf t)) = true →
        (parse_amount_and_slippage t).2 = 50) ∧
      ((hasSub aggressiveKw (lowerOf t) || hasSub fastKw (lowerOf t) ||
          hasSub urgentKw (lowerOf t)) = false →
        (hasSub safeKw (lowerOf t) || hasSub conservativeKw (lowerOf t) ||
            hasSub lowKw (lowerOf t)) = false →
        (parse_amount_and_slippage t).2 = 10) := by
  refine ⟨fun ha => ?_, fun ha hs => ?_, fun ha hs => ?_⟩
  · simp only [parse_amount_and_slippage, h1, h2, ha, if_true]
    decide
  · simp only [parse_amount_and_slippage, h1, h2, ha, hs, if_true,
      Bool.false_eq_true, if_false]
    decide
  · simp only [parse_amount_and_slippage, h1, h2, ha, hs,
      Bool.false_eq_true, if_false]
    decide

/-- Witness for C10 (amended): a 'fast' text gets 30, a 'safe' text gets 50,
a neutral text gets 10. -/
theorem c10_witness :
    (parse_amount_and_slippage "swap 10 ada fast").2 = 30 ∧
      (parse_amount_and_slippage "swap 10 ada safe").2 = 50 ∧
      (parse_amount_and_slippage "swap 10 ada").2 = 10 :=
  ⟨(c10_amended "swap 10 ada fast" (by decide) (by decide)).1 (by decide),
   (c10_amended "swap 10 ada safe" (by decide) (by decide)).2.1 (by decide) (by decide),
   (c10_amended "swap 10 ada" (by decide) (by decide)).2.2 (by decide) (by decide)⟩

/-- Counterexample for C3: through `parse_amount_and_slippage`, the
major-unit amount 1.2345678 (seven fractional digits against six decimals)
converts to 1234568 atomic units — the very value the claim rules out. -/
theorem c3_cex : (parse_amount_and_slippage "swap 1.2345678 ada").1 = 1234568 := by
  decide

/-- C3 (amended): the `MinswapSwapTool` conversion `int(amount * 1_000_000)`
truncates and never rounds up (its result never exceeds the exact product),
but `parse_amount_and_slippage` uses `int(round(amount * 1_000_000))`,
rounding to nearest, so 1.2345678 converts there to 1234568, not
1234567. -/
theorem c3_amended :
    (∀ q : ℚ, 0 ≤ q → ((toAtomicSix q : ℤ) : ℚ) ≤ q * 1000000) ∧
      (parse_amount_and_slippage "swap 1.2345678 ada").1 = 1234568 := by
  constructor
  · intro q hq
    rw [toAtomicSix, ratMul_eq_mul, pyTrunc_eq_floor _ (mul_nonneg hq (by norm_num))]
    exact Int.floor_le _
  · decide

/-- Witness for C3 (amended): applied at the concrete amount 1.2345678. -/
theorem c3_witness :
    ((toAtomicSix (mkRat 12345678 10000000) : ℤ) : ℚ) ≤
        mkRat 12345678 10000000 * 1000000 ∧
      (parse_amount_and_slippage "swap 1.2345678 ada").1 = 1234568 :=
  ⟨c3_amended.1 (mkRat 12345678 10000000) (by decide), c3_amended.2⟩
